import Mathlib

/-!
Shallow embedding of the github-rate-limit-http-transport repository
(package ghratelimit): the per-resource rate registry (`Limits`), header
parsing (`ParseRate`, `ParseResource`, `(*Limits).Parse`), the rate-limit
fetch path (`(*Limits).Fetch`), resource inference (`InferResource`), and
the balancing transport with its two selection strategies
(`StrategyMostRemaining`, `StrategyResetTimeInPastAndMostRemaining`,
`(*BalancingTransport).RoundTrip` from balancing.go).

Go machine integers are modelled as `Nat` with explicit `2 ^ 64` bounds
where `strconv.ParseUint(_, 10, 64)` enforces them, and the
`int64(r.Reset)` cast as a two's-complement reinterpretation on `Int`.
`time.Now().Unix()` is a `now : Int` parameter. The `sync.Map` registry is
an association list where a store prepends, so a load sees the newest
entry first.
-/

namespace GhRateLimit

/-- `Resource` from resource.go: the X-RateLimit-Resource header value. -/
abbrev Resource := String

/-- `Rate` from the value-struct variant (four uint64 fields). -/
structure Rate where
  limit : Nat
  used : Nat
  remaining : Nat
  reset : Nat
deriving DecidableEq, Repr

/-- `Limits` registry: the `sync.Map` from `Resource` to `*Rate`,
modelled as an association list where `store` prepends. -/
abbrev Limits := List (Resource × Rate)

/-- `(*Limits).Load`: the current rate for a resource, or none. -/
def load : Limits → Resource → Option Rate
  | [], _ => none
  | (k, v) :: rest, r => if k = r then some v else load rest r

/-- `(*Limits).Store`: overwrite the rate for a resource (the newest
entry shadows older ones in the association list). -/
def store (st : Limits) (r : Resource) (v : Rate) : Limits :=
  (r, v) :: st

/-- `Transport` from transport.go: only its `Limits` field is relevant to
the selection strategies. -/
structure Transport where
  limits : Limits
deriving DecidableEq, Repr

/-- The response headers read by the parsing path; Go's `Header.Get`
returns `""` for an absent header, so absent is the empty string. -/
structure Headers where
  resource : String
  limit : String
  used : String
  remaining : String
  reset : String
deriving DecidableEq, Repr

/-- Numeric value of a decimal digit string (most significant first). -/
def digitsVal (cs : List Char) : Nat :=
  cs.foldl (fun a c => a * 10 + (c.toNat - 48)) 0

/-- `strconv.ParseUint(s, 10, 64)`: succeeds exactly on a non-empty
all-digit string whose value fits in 64 bits (no sign permitted). -/
def parseUint64 (s : String) : Option Nat :=
  match s.toList with
  | [] => none
  | c :: cs =>
    if (c :: cs).all Char.isDigit then
      if digitsVal (c :: cs) < 2 ^ 64 then some (digitsVal (c :: cs)) else none
    else none

/-- Which of the four numeric headers a ParseError blames. -/
inductive RateField where
  | limit
  | used
  | remaining
  | reset
deriving DecidableEq, Repr

/-- The header string a `RateField` error refers to. -/
def fieldOf (h : Headers) : RateField → String
  | .limit => h.limit
  | .used => h.used
  | .remaining => h.remaining
  | .reset => h.reset

/-- `ParseRate` from rate.go (value variant): parse the four numeric
headers in order limit, used, remaining, reset, failing on the first
malformed one; only on full success is a `Rate` produced. -/
def parseRate (h : Headers) : Except RateField Rate :=
  match parseUint64 h.limit with
  | none => .error .limit
  | some l =>
    match parseUint64 h.used with
    | none => .error .used
    | some u =>
      match parseUint64 h.remaining with
      | none => .error .remaining
      | some rem =>
        match parseUint64 h.reset with
        | none => .error .reset
        | some rs => .ok ⟨l, u, rem, rs⟩

/-- `ParseResource` from resource.go: the raw X-RateLimit-Resource value. -/
def parseResource (h : Headers) : Resource :=
  h.resource

/-- `(*Limits).Parse` (the spec's ParseAndStore): empty resource is a
no-op success; otherwise parse all four numeric headers and store the
resulting rate only on full success. Returned alongside the (possibly
updated) registry state. -/
def limitsParse (st : Limits) (h : Headers) : Except RateField Unit × Limits :=
  if parseResource h = "" then (.ok (), st)
  else
    match parseRate h with
    | .error e => (.error e, st)
    | .ok rate => (.ok (), store st (parseResource h) rate)

/-- The error kinds of `(*Limits).Fetch`. -/
inductive FetchError where
  | bodyRead
  | badStatus (code : Nat)
  | badJSON
deriving DecidableEq, Repr

/-- `(*Limits).Fetch` after the round trip: read the body (failure is a
distinct error), require status 200, decode the JSON `resources` map
(decoding is abstracted as an already-parsed optional list), then store
every decoded entry. Every error path leaves the registry untouched. -/
def limitsFetch (st : Limits) (readOk : Bool) (status : Nat)
    (decoded : Option (List (Resource × Rate))) : Except FetchError Unit × Limits :=
  if !readOk then (.error .bodyRead, st)
  else if status ≠ 200 then (.error (.badStatus status), st)
  else
    match decoded with
    | none => (.error .badJSON, st)
    | some rs => (.ok (), rs.foldl (fun m p => store m p.1 p.2) st)

/-- Go's `int64(x)` reinterpretation of a uint64 value. -/
def toInt64 (n : Nat) : Int :=
  if n < 2 ^ 63 then (n : Int) else (n : Int) - 2 ^ 64

/-- `extractValues` from balancing.go: remaining tokens and reset epoch
(as int64) for a possibly-nil transport; zero values on any miss. -/
def extractValues (res : Resource) (t : Option Transport) : Nat × Int :=
  match t with
  | none => (0, 0)
  | some tr =>
    match load tr.limits res with
    | none => (0, 0)
    | some r => (r.remaining, toInt64 r.reset)

/-- `StrategyMostRemaining` from balancing.go: the candidate wins only
with strictly more remaining; otherwise the current best (possibly nil)
is kept. -/
def strategyMostRemaining (res : Resource) (best candidate : Option Transport) :
    Option Transport :=
  if (extractValues res candidate).1 > (extractValues res best).1 then candidate
  else best

/-- `resetIsInPastAndEarlierThanOther` from balancing.go. -/
def resetIsInPastAndEarlierThanOther (now reset otherReset : Int) : Bool :=
  decide (reset ≠ 0) && decide (reset < now) &&
    (decide (otherReset = 0) || decide (reset < otherReset))

/-- `StrategyResetTimeInPastAndMostRemaining` from balancing.go, with
`time.Now().Unix()` supplied as `now`. The two checks inside Go's
`candidateReset != 0 && bestReset != 0` block are flattened by conjoining
that guard, which preserves the fall-through control flow. -/
def strategyResetTimeInPastAndMostRemaining (now : Int) (res : Resource)
    (best candidate : Option Transport) : Option Transport :=
  if (extractValues res best).1 = 0 ∧ (extractValues res candidate).1 = 0 then none
  else if resetIsInPastAndEarlierThanOther now (extractValues res candidate).2
      (extractValues res best).2 then candidate
  else if resetIsInPastAndEarlierThanOther now (extractValues res best).2
      (extractValues res candidate).2 then best
  else if (extractValues res candidate).2 ≠ 0 ∧ (extractValues res best).2 ≠ 0 ∧
      (extractValues res candidate).2 < (extractValues res best).2 ∧
      (extractValues res candidate).1 > 0 then candidate
  else if (extractValues res candidate).2 ≠ 0 ∧ (extractValues res best).2 ≠ 0 ∧
      (extractValues res best).2 < (extractValues res candidate).2 ∧
      (extractValues res best).1 > 0 then best
  else if (extractValues res candidate).1 > (extractValues res best).1 then candidate
  else best

/-- The strategy fold of `(*BalancingTransport).RoundTrip`: left-to-right
over the transports, starting from a nil best. -/
def foldStrategy (strat : Resource → Option Transport → Option Transport → Option Transport)
    (res : Resource) (ts : List Transport) : Option Transport :=
  ts.foldl (fun b t => strat res b (some t)) none

/-- An outgoing HTTP request: only method and URL path matter here. -/
structure Request where
  method : String
  path : String
deriving DecidableEq, Repr

/-- `strings.TrimPrefix` on character lists. -/
def trimPrefix (s pre : List Char) : List Char :=
  if pre.isPrefixOf s then s.drop pre.length else s

/-- `strings.Contains` on character lists. -/
def listContainsSub : List Char → List Char → Bool
  | _, [] => true
  | [], _ :: _ => false
  | h :: t, c :: cs => (c :: cs).isPrefixOf (h :: t) || listContainsSub t (c :: cs)

def ResourceCore : Resource := "core"
def ResourceSearch : Resource := "search"
def ResourceGraphQL : Resource := "graphql"
def ResourceIntegrationManifest : Resource := "integration_manifest"
def ResourceSourceImport : Resource := "source_import"
def ResourceCodeScanningUpload : Resource := "code_scanning_upload"
def ResourceCodeScanningAutofix : Resource := "code_scanning_autofix"
def ResourceActionsRunnerRegistration : Resource := "actions_runner_registration"
def ResourceSCIM : Resource := "scim"
def ResourceDependencySnapshots : Resource := "dependency_snapshots"
def ResourceAuditLog : Resource := "audit_log"
def ResourceAuditLogStreaming : Resource := "audit_log_streaming"
def ResourceCodeSearch : Resource := "code_search"

/-- The `path := strings.TrimPrefix(req.URL.Path, "/api/v3")` local of
`InferResource`. -/
def requestPath (req : Request) : List Char :=
  trimPrefix req.path.toList "/api/v3".toList

/-- `InferResource` (ghratelimit variant): strip an optional `/api/v3`
prefix, then classify the path by prefix/suffix/substring rules, with
`core` as the default bucket. -/
def inferResource (req : Request) : Resource :=
  if "/search/".toList.isPrefixOf (requestPath req) then
    if (requestPath req) == "/search/code".toList then ResourceCodeSearch else ResourceSearch
  else if (requestPath req) == "/graphql".toList then ResourceGraphQL
  else if "/app-manifests/".toList.isPrefixOf (requestPath req) then ResourceIntegrationManifest
  else if "/repos/".toList.isPrefixOf (requestPath req) &&
      "/code-scanning/sarifs".toList.isSuffixOf (requestPath req) &&
      req.method == "POST" then ResourceCodeScanningUpload
  else if "/repos/".toList.isPrefixOf (requestPath req) &&
      listContainsSub (requestPath req) "/code-scanning/alerts/".toList &&
      "/autofix".toList.isSuffixOf (requestPath req) &&
      req.method == "POST" then ResourceCodeScanningAutofix
  else if "/actions/runners/registration-token".toList.isPrefixOf (requestPath req) &&
      req.method == "POST" then ResourceActionsRunnerRegistration
  else if "/scim/v2/".toList.isPrefixOf (requestPath req) then ResourceSCIM
  else if "/repos/".toList.isPrefixOf (requestPath req) &&
      listContainsSub (requestPath req) "/dependency-graph/".toList then ResourceDependencySnapshots
  else if ("/enterprises/".toList.isPrefixOf (requestPath req) ||
        "/organizations/".toList.isPrefixOf (requestPath req)) &&
      "/audit-log".toList.isSuffixOf (requestPath req) then ResourceAuditLog
  else if ("/enterprises/".toList.isPrefixOf (requestPath req) ||
        "/organizations/".toList.isPrefixOf (requestPath req)) &&
      listContainsSub (requestPath req) "/audit-log/streams".toList then ResourceAuditLogStreaming
  else ResourceCore

/-- The error outcomes of `(*BalancingTransport).RoundTrip` before
delegation. -/
inductive RoundTripError where
  | noTransports
  | unknownResource
deriving DecidableEq, Repr

/-- The selection part of `(*BalancingTransport).RoundTrip`: error on an
empty transport list, error on an empty resource, otherwise fold the
strategy and delegate to the winner, falling back to `rand.Intn`-indexed
selection (the random draw is supplied as `pick`, reduced mod the list
length) when the fold yields nil. -/
def roundTripSelect (strat : Resource → Option Transport → Option Transport → Option Transport)
    (ts : List Transport) (res : Resource) (pick : Nat) :
    Except RoundTripError Transport :=
  if hts : ts = [] then .error .noTransports
  else if res = "" then .error .unknownResource
  else
    match foldStrategy strat res ts with
    | some t => .ok t
    | none =>
      .ok (ts.get ⟨pick % ts.length, Nat.mod_lt _ (List.length_pos.mpr hts)⟩)

/-- `(*BalancingTransport).RoundTrip` up to the delegated transport:
infer the resource from the request, then select. -/
def roundTrip (strat : Resource → Option Transport → Option Transport → Option Transport)
    (ts : List Transport) (req : Request) (pick : Nat) :
    Except RoundTripError Transport :=
  roundTripSelect strat ts (inferResource req) pick

/-- Concrete transport with no stored rates. -/
def tEmpty : Transport := ⟨[]⟩

/-- Concrete transport A of the reset-aware scenario: remaining 0, reset
990 (non-zero, in the past relative to now = 1000). -/
def tA : Transport := ⟨[("core", ⟨100, 0, 0, 990⟩)]⟩

/-- Concrete transport B of the reset-aware scenario: remaining 5, reset
4600 = 1000 + 3600 (one hour in the future relative to now = 1000). -/
def tB : Transport := ⟨[("core", ⟨100, 0, 5, 4600⟩)]⟩

/-- A header set with four well-formed numeric headers. -/
def hdrGood : Headers := ⟨"core", "5000", "1000", "4000", "1633036800"⟩

/-- A header set whose used header is malformed. -/
def hdrBad : Headers := ⟨"core", "5000", "x", "4000", "1633036800"⟩

/-- A header set with an empty resource header and garbage numerics. -/
def hdrNoRes : Headers := ⟨"", "x", "y", "z", "w"⟩

/-- A registry that already holds an entry for the search resource. -/
def stInit : Limits := [("search", ⟨10, 1, 9, 77⟩)]

/-- A plain core-API request. -/
def reqUser : Request := ⟨"GET", "/user"⟩

/-- A strategy that always keeps the incumbent (so its fold is none). -/
def stratKeep : Resource → Option Transport → Option Transport → Option Transport :=
  fun _ b _ => b

/-! ## Helper lemmas -/

theorem extractValues_none (res : Resource) : extractValues res none = (0, 0) := rfl

theorem load_store_self (st : Limits) (r : Resource) (v : Rate) :
    load (store st r v) r = some v := by
  simp [load, store]

theorem ripaeto_spec {now r o : Int}
    (h : resetIsInPastAndEarlierThanOther now r o = true) :
    r ≠ 0 ∧ r < now ∧ (o = 0 ∨ r < o) := by
  unfold resetIsInPastAndEarlierThanOther at h
  simp only [Bool.and_eq_true, Bool.or_eq_true, decide_eq_true_eq] at h
  exact ⟨h.1.1, h.1.2, h.2⟩

theorem ripaeto_true {now r o : Int} (h0 : r ≠ 0) (h1 : r < now)
    (h2 : o = 0 ∨ r < o) : resetIsInPastAndEarlierThanOther now r o = true := by
  unfold resetIsInPastAndEarlierThanOther
  simp only [Bool.and_eq_true, Bool.or_eq_true, decide_eq_true_eq]
  exact ⟨⟨h0, h1⟩, h2⟩

theorem ripaeto_false_of_not_lt {now r o : Int} (h : ¬ r < now) :
    resetIsInPastAndEarlierThanOther now r o = false := by
  unfold resetIsInPastAndEarlierThanOther
  simp [h]

theorem ripaeto_false_of_zero {now o : Int} :
    resetIsInPastAndEarlierThanOther now 0 o = false := by
  unfold resetIsInPastAndEarlierThanOther
  simp

theorem transport_ne_none_of_fst {res : Resource} {b : Option Transport}
    (h : (extractValues res b).1 ≠ 0) : b ≠ none := by
  intro e
  subst e
  exact h rfl

theorem transport_ne_none_of_snd {res : Resource} {b : Option Transport}
    (h : (extractValues res b).2 ≠ 0) : b ≠ none := by
  intro e
  subst e
  exact h rfl

/-! ## Claim theorems -/

/-- Claim C4: for every resource and every pair (currentBest, candidate)
whose stored remaining values for that resource are both 0 (absent
treated as 0), StrategyResetTimeInPastAndMostRemaining returns none. -/
theorem resetAware_bothZero_none (now : Int) (res : Resource)
    (best candidate : Option Transport)
    (hb : (extractValues res best).1 = 0)
    (hc : (extractValues res candidate).1 = 0) :
    strategyResetTimeInPastAndMostRemaining now res best candidate = none := by
  unfold strategyResetTimeInPastAndMostRemaining
  simp [hb, hc]

/-- Witness for C4: both sides zero at a concrete input yields none. -/
theorem resetAware_bothZero_none_witness :
    (extractValues "core" none).1 = 0 ∧ (extractValues "core" (some tA)).1 = 0 ∧
      strategyResetTimeInPastAndMostRemaining 1000 "core" none (some tA) = none :=
  ⟨by decide, by decide,
    resetAware_bothZero_none 1000 "core" none (some tA) (by decide) (by decide)⟩

/-- Claim C10: whenever at least one of the two sides has remaining > 0
for the resource and the candidate is non-none, a single invocation of
StrategyResetTimeInPastAndMostRemaining never returns none (none arises
only from the both-zero short-circuit). -/
theorem resetAware_somePositive_not_none (now : Int) (res : Resource)
    (best : Option Transport) (t : Transport)
    (hpos : (extractValues res best).1 ≠ 0 ∨ (extractValues res (some t)).1 ≠ 0) :
    strategyResetTimeInPastAndMostRemaining now res best (some t) ≠ none := by
  unfold strategyResetTimeInPastAndMostRemaining
  split_ifs with h1 h2 h3 h4 h5 h6
  · exact absurd h1 (by tauto)
  · simp
  · exact transport_ne_none_of_snd (ripaeto_spec h3).1
  · simp
  · exact transport_ne_none_of_fst (Nat.pos_iff_ne_zero.mp h5.2.2.2)
  · simp
  · refine @transport_ne_none_of_fst res best ?_
    rcases hpos with h | h
    · exact h
    · intro hb0
      rw [hb0] at h6
      exact h6 (Nat.pos_of_ne_zero h)

/-- Witness for C10: candidate with positive remaining never yields none. -/
theorem resetAware_somePositive_not_none_witness :
    (extractValues "core" (some tB)).1 ≠ 0 ∧
      strategyResetTimeInPastAndMostRemaining 1000 "core" none (some tB) ≠ none :=
  ⟨by decide,
    resetAware_somePositive_not_none 1000 "core" none tB (Or.inr (by decide))⟩

/-- Claim C8: for every registry state and every header set whose
resource header is absent or empty, ParseAndStore succeeds as a no-op:
the state is returned unchanged, so Load of every resource is
unaffected, regardless of the numeric headers. -/
theorem limitsParse_empty_resource_noop (st : Limits) (h : Headers)
    (hres : h.resource = "") :
    limitsParse st h = (.ok (), st) ∧
      ∀ r, load (limitsParse st h).2 r = load st r := by
  unfold limitsParse parseResource
  rw [if_pos hres]
  exact ⟨rfl, fun r => rfl⟩

/-- Witness for C8: empty resource header with garbage numerics is a
no-op success. -/
theorem limitsParse_empty_resource_noop_witness :
    hdrNoRes.resource = "" ∧
      (limitsParse stInit hdrNoRes = (.ok (), stInit) ∧
        ∀ r, load (limitsParse stInit hdrNoRes).2 r = load stInit r) :=
  ⟨by decide, limitsParse_empty_resource_noop stInit hdrNoRes (by decide)⟩

/-- Claim C6: for every registry state and every response with status
code different from 200, Fetch returns a FetchError and every previously
stored (resource, rate) entry is unchanged. -/
theorem limitsFetch_non200_frame (st : Limits) (readOk : Bool) (status : Nat)
    (decoded : Option (List (Resource × Rate))) (hs : status ≠ 200) :
    (∃ e, (limitsFetch st readOk status decoded).1 = .error e) ∧
      ∀ r, load (limitsFetch st readOk status decoded).2 r = load st r := by
  cases readOk with
  | false => exact ⟨⟨.bodyRead, rfl⟩, fun r => rfl⟩
  | true =>
    unfold limitsFetch
    rw [show (!true) = false from rfl, if_neg (by simp), if_pos hs]
    exact ⟨⟨.badStatus status, rfl⟩, fun r => rfl⟩

/-- Witness for C6: a 404 fetch errors and leaves the registry intact. -/
theorem limitsFetch_non200_frame_witness :
    (404 : Nat) ≠ 200 ∧
      ((∃ e, (limitsFetch stInit true 404 none).1 = .error e) ∧
        ∀ r, load (limitsFetch stInit true 404 none).2 r = load stInit r) :=
  ⟨by decide, limitsFetch_non200_frame stInit true 404 none (by decide)⟩

theorem parseRate_error_of_bad (h : Headers)
    (hbad : parseUint64 h.limit = none ∨ parseUint64 h.used = none ∨
      parseUint64 h.remaining = none ∨ parseUint64 h.reset = none) :
    ∃ e, parseRate h = .error e ∧ parseUint64 (fieldOf h e) = none := by
  unfold parseRate
  cases hl : parseUint64 h.limit with
  | none => exact ⟨.limit, rfl, hl⟩
  | some l =>
    cases hu : parseUint64 h.used with
    | none => exact ⟨.used, rfl, hu⟩
    | some u =>
      cases hr : parseUint64 h.remaining with
      | none => exact ⟨.remaining, rfl, hr⟩
      | some rem =>
        cases hs : parseUint64 h.reset with
        | none => exact ⟨.reset, rfl, hs⟩
        | some rs =>
          rcases hbad with hb | hb | hb | hb <;> simp_all

/-- Claim C3: for every header set with a non-empty resource header where
some numeric rate header fails to parse as a non-negative integer,
ParseAndStore returns a ParseError identifying the failing field and the
registry state is returned exactly as it was (so Load is unaffected for
every resource: no partial write). -/
theorem limitsParse_malformed_frame (st : Limits) (h : Headers)
    (hres : h.resource ≠ "")
    (hbad : parseUint64 h.limit = none ∨ parseUint64 h.used = none ∨
      parseUint64 h.remaining = none ∨ parseUint64 h.reset = none) :
    (∃ e, (limitsParse st h).1 = .error e ∧ parseUint64 (fieldOf h e) = none) ∧
      (limitsParse st h).2 = st := by
  obtain ⟨e, he, hf⟩ := parseRate_error_of_bad h hbad
  unfold limitsParse
  rw [show parseResource h = h.resource from rfl, if_neg hres, he]
  exact ⟨⟨e, rfl, hf⟩, rfl⟩

/-- Witness for C3: a malformed used header fails identifying the used
field and leaves a pre-populated registry untouched. -/
theorem limitsParse_malformed_witness :
    hdrBad.resource ≠ "" ∧ parseUint64 hdrBad.used = none ∧
      ((∃ e, (limitsParse stInit hdrBad).1 = .error e ∧
          parseUint64 (fieldOf hdrBad e) = none) ∧
        (limitsParse stInit hdrBad).2 = stInit) :=
  ⟨by decide, by decide,
    limitsParse_malformed_frame stInit hdrBad (by decide)
      (Or.inr (Or.inl (by decide)))⟩

theorem parseUint64_of_digits (s : String) (h1 : s.toList ≠ [])
    (h2 : s.toList.all Char.isDigit = true) (h3 : digitsVal s.toList < 2 ^ 64) :
    parseUint64 s = some (digitsVal s.toList) := by
  unfold parseUint64
  rcases hm : s.toList with _ | ⟨c, cs⟩
  · exact absurd hm h1
  · rw [hm] at h2 h3
    simp [h2]
    omega

/-- Claim C7: for every header set with a non-empty resource header and
four headers that each parse as a non-negative base-10 integer (a
non-empty digit string whose value fits the uint64 fields), ParseAndStore
succeeds and a subsequent Load of that resource returns exactly those
four values. -/
theorem limitsParse_valid_then_load (st : Limits) (h : Headers)
    (hres : h.resource ≠ "")
    (hl : h.limit.toList ≠ [] ∧ h.limit.toList.all Char.isDigit = true ∧
      digitsVal h.limit.toList < 2 ^ 64)
    (hu : h.used.toList ≠ [] ∧ h.used.toList.all Char.isDigit = true ∧
      digitsVal h.used.toList < 2 ^ 64)
    (hr : h.remaining.toList ≠ [] ∧ h.remaining.toList.all Char.isDigit = true ∧
      digitsVal h.remaining.toList < 2 ^ 64)
    (hs : h.reset.toList ≠ [] ∧ h.reset.toList.all Char.isDigit = true ∧
      digitsVal h.reset.toList < 2 ^ 64) :
    (limitsParse st h).1 = .ok () ∧
      load (limitsParse st h).2 h.resource =
        some ⟨digitsVal h.limit.toList, digitsVal h.used.toList,
          digitsVal h.remaining.toList, digitsVal h.reset.toList⟩ := by
  have el := parseUint64_of_digits h.limit hl.1 hl.2.1 hl.2.2
  have eu := parseUint64_of_digits h.used hu.1 hu.2.1 hu.2.2
  have er := parseUint64_of_digits h.remaining hr.1 hr.2.1 hr.2.2
  have es := parseUint64_of_digits h.reset hs.1 hs.2.1 hs.2.2
  have hrate : parseRate h =
      .ok ⟨digitsVal h.limit.toList, digitsVal h.used.toList,
        digitsVal h.remaining.toList, digitsVal h.reset.toList⟩ := by
    unfold parseRate
    rw [el, eu, er, es]
  unfold limitsParse
  rw [show parseResource h = h.resource from rfl, if_neg hres, hrate]
  exact ⟨rfl, load_store_self st h.resource _⟩

/-- Witness for C7: the four concrete headers 5000/1000/4000/1633036800
are stored and loaded back verbatim. -/
theorem limitsParse_valid_then_load_witness :
    hdrGood.resource ≠ "" ∧
      ((limitsParse stInit hdrGood).1 = .ok () ∧
        load (limitsParse stInit hdrGood).2 hdrGood.resource =
          some ⟨digitsVal hdrGood.limit.toList, digitsVal hdrGood.used.toList,
            digitsVal hdrGood.remaining.toList, digitsVal hdrGood.reset.toList⟩) :=
  ⟨by decide,
    limitsParse_valid_then_load stInit hdrGood (by decide)
      ⟨by decide, by decide, by decide⟩ ⟨by decide, by decide, by decide⟩
      ⟨by decide, by decide, by decide⟩ ⟨by decide, by decide, by decide⟩⟩

/-- Counterexample to claim C1 as stated: a one-element candidate list
whose only transport has no stored rate for the resource. The list is
non-empty and every candidate has zero (absent) remaining, yet the fold
of StrategyMostRemaining from none returns none, not the first
candidate: with zero remaining the candidate never beats the nil best
(0 > 0 fails), so the nil incumbent is kept. -/
theorem mostRemaining_all_unknown_counterexample :
    ([tEmpty] : List Transport) ≠ [] ∧
      (∀ t ∈ ([tEmpty] : List Transport), (extractValues "core" (some t)).1 = 0) ∧
      foldStrategy strategyMostRemaining "core" [tEmpty] = none ∧
      foldStrategy strategyMostRemaining "core" [tEmpty] ≠ some tEmpty := by
  refine ⟨by simp, ?_, by decide, by decide⟩
  intro t ht
  simp only [List.mem_singleton] at ht
  subst ht
  decide

theorem mostRemaining_step_zero (res : Resource) (t : Transport)
    (h0 : (extractValues res (some t)).1 = 0) :
    strategyMostRemaining res none (some t) = none := by
  unfold strategyMostRemaining
  rw [h0]
  simp [extractValues]

/-- Claim C1 (amended): for every resource and candidate list in which
every candidate has no stored rate (or zero remaining) for that
resource, the left-to-right fold of StrategyMostRemaining starting from
none returns none (not the first candidate): a candidate wins only with
strictly greater remaining, so the nil initial best is never replaced;
the RoundTrip caller then falls back to a random candidate. -/
theorem mostRemaining_fold_all_zero_none (res : Resource) (ts : List Transport)
    (hz : ∀ t ∈ ts, (extractValues res (some t)).1 = 0) :
    foldStrategy strategyMostRemaining res ts = none := by
  unfold foldStrategy
  induction ts with
  | nil => rfl
  | cons t rest ih =>
    rw [List.foldl_cons, mostRemaining_step_zero res t (hz t (List.mem_cons_self t rest))]
    exact ih (fun u hu => hz u (List.mem_cons_of_mem t hu))

/-- Witness for the amended C1: an all-unknown two-transport list folds
to none. -/
theorem mostRemaining_fold_all_zero_none_witness :
    (∀ t ∈ ([tEmpty, tA] : List Transport), (extractValues "graphql" (some t)).1 = 0) ∧
      foldStrategy strategyMostRemaining "graphql" [tEmpty, tA] = none := by
  have hz : ∀ t ∈ ([tEmpty, tA] : List Transport),
      (extractValues "graphql" (some t)).1 = 0 := by
    intro t ht
    simp only [List.mem_cons, List.mem_singleton, List.not_mem_nil] at ht
    rcases ht with h | h | h
    · subst h; decide
    · subst h; decide
    · exact absurd h (by simp)
  exact ⟨hz, mostRemaining_fold_all_zero_none "graphql" [tEmpty, tA] hz⟩

/-- Counterexample to claim C2 as stated: with now = 1000, candidate A
(reset 990, non-zero and past; remaining 0) and candidate B (reset
4600 = now + 3600; remaining 5), the fold of
StrategyResetTimeInPastAndMostRemaining over the order [A, B] selects B,
not A: at the first step both the nil initial best and A have zero
remaining, so the short-circuit discards A. -/
theorem resetAware_order_counterexample :
    load tA.limits "core" = some ⟨100, 0, 0, 990⟩ ∧
      (990 : Int) ≠ 0 ∧ (990 : Int) < 1000 ∧
      load tB.limits "core" = some ⟨100, 0, 5, 4600⟩ ∧
      (4600 : Int) = 1000 + 3600 ∧
      foldStrategy (strategyResetTimeInPastAndMostRemaining 1000) "core" [tA, tB] =
        some tB ∧
      tB ≠ tA := by
  decide

/-- Claim C2 (amended): with candidate A (reset non-zero, in the past,
remaining 0) and candidate B (reset one hour in the future, remaining 5)
for the resource, the fold of StrategyResetTimeInPastAndMostRemaining
selects A when the list order is [B, A]; in the order [A, B] the
both-zero short-circuit at the first step discards A against the nil
initial best and the fold selects B. A single pairwise invocation with A
and B in either argument position does select A. -/
theorem resetAware_pastReset_fold_order (now : Int) (res : Resource)
    (A B : Transport) (la ua ra lb ub rb : Nat)
    (hA : load A.limits res = some ⟨la, ua, 0, ra⟩)
    (hra0 : ra ≠ 0) (hra63 : ra < 2 ^ 63) (hrapast : (ra : Int) < now)
    (hB : load B.limits res = some ⟨lb, ub, 5, rb⟩)
    (hrb63 : rb < 2 ^ 63) (hrb : (rb : Int) = now + 3600) :
    foldStrategy (strategyResetTimeInPastAndMostRemaining now) res [B, A] = some A ∧
      foldStrategy (strategyResetTimeInPastAndMostRemaining now) res [A, B] = some B ∧
      strategyResetTimeInPastAndMostRemaining now res (some A) (some B) = some A ∧
      strategyResetTimeInPastAndMostRemaining now res (some B) (some A) = some A := by
  have eA : extractValues res (some A) = (0, (ra : Int)) := by
    simp [extractValues, hA, toInt64, hra63]
    omega
  have eB : extractValues res (some B) = (5, now + 3600) := by
    simp [extractValues, hB, toInt64, hrb63, hrb]
    omega
  have hraZ : (ra : Int) ≠ 0 := by exact_mod_cast hra0
  have hBfut : ¬ (now + 3600 : Int) < now := by omega
  have ripBA : resetIsInPastAndEarlierThanOther now (ra : Int) (now + 3600) = true :=
    ripaeto_true hraZ hrapast (Or.inr (by omega))
  have ripBfut : ∀ o : Int, resetIsInPastAndEarlierThanOther now (now + 3600) o = false :=
    fun o => ripaeto_false_of_not_lt hBfut
  have stepNilB : strategyResetTimeInPastAndMostRemaining now res none (some B) =
      some B := by
    unfold strategyResetTimeInPastAndMostRemaining
    rw [eB, extractValues_none]
    simp [ripBfut, ripaeto_false_of_zero]
  have stepNilA : strategyResetTimeInPastAndMostRemaining now res none (some A) =
      none := by
    unfold strategyResetTimeInPastAndMostRemaining
    rw [eA, extractValues_none]
    simp
  have stepBA : strategyResetTimeInPastAndMostRemaining now res (some B) (some A) =
      some A := by
    unfold strategyResetTimeInPastAndMostRemaining
    rw [eA, eB]
    simp [ripBA]
  have stepAB : strategyResetTimeInPastAndMostRemaining now res (some A) (some B) =
      some A := by
    unfold strategyResetTimeInPastAndMostRemaining
    rw [eA, eB]
    simp [ripBfut, ripBA]
  refine ⟨?_, ?_, stepAB, stepBA⟩
  · unfold foldStrategy
    rw [List.foldl_cons, stepNilB, List.foldl_cons, stepBA, List.foldl_nil]
  · unfold foldStrategy
    rw [List.foldl_cons, stepNilA, List.foldl_cons, stepNilB, List.foldl_nil]

/-- Witness for the amended C2 at now = 1000 with the concrete
transports tA and tB. -/
theorem resetAware_pastReset_fold_order_witness :
    load tA.limits "core" = some ⟨100, 0, 0, 990⟩ ∧
      load tB.limits "core" = some ⟨100, 0, 5, 4600⟩ ∧
      (foldStrategy (strategyResetTimeInPastAndMostRemaining 1000) "core" [tB, tA] =
          some tA ∧
        foldStrategy (strategyResetTimeInPastAndMostRemaining 1000) "core" [tA, tB] =
          some tB ∧
        strategyResetTimeInPastAndMostRemaining 1000 "core" (some tA) (some tB) =
          some tA ∧
        strategyResetTimeInPastAndMostRemaining 1000 "core" (some tB) (some tA) =
          some tA) :=
  ⟨by decide, by decide,
    resetAware_pastReset_fold_order 1000 "core" tA tB 100 0 990 100 0 4600
      (by decide) (by decide) (by decide) (by decide) (by decide) (by decide)
      (by decide)⟩

set_option maxHeartbeats 1000000 in
theorem inferResource_ne_empty (req : Request) : inferResource req ≠ "" := by
  unfold inferResource
  split_ifs <;> decide

theorem foldl_strat_cases
    (strat : Resource → Option Transport → Option Transport → Option Transport)
    (hs : ∀ res b c, strat res b c = none ∨ strat res b c = b ∨ strat res b c = c)
    (res : Resource) (ts : List Transport) :
    ∀ acc : Option Transport,
      ts.foldl (fun b t => strat res b (some t)) acc = none ∨
        ts.foldl (fun b t => strat res b (some t)) acc = acc ∨
        ∃ u, ts.foldl (fun b t => strat res b (some t)) acc = some u ∧ u ∈ ts := by
  induction ts with
  | nil => exact fun acc => Or.inr (Or.inl rfl)
  | cons t rest ih =>
    intro acc
    rw [List.foldl_cons]
    rcases ih (strat res acc (some t)) with h | h | ⟨u, hu, hmem⟩
    · exact Or.inl h
    · rcases hs res acc (some t) with h2 | h2 | h2
      · exact Or.inl (h.trans h2)
      · exact Or.inr (Or.inl (h.trans h2))
      · exact Or.inr (Or.inr ⟨t, h.trans h2, by simp⟩)
    · exact Or.inr (Or.inr ⟨u, hu, by simp [hmem]⟩)

/-- Claim C5: RoundTrip returns the no-transports error exactly when the
candidate list is empty; for a non-empty list, when the strategy fold
yields no winner the request is delegated to the randomly drawn
candidate, which is a member of the list — never a no-transport error. -/
theorem balancer_empty_error_and_fallback
    (strat : Resource → Option Transport → Option Transport → Option Transport)
    (ts : List Transport) (req : Request) (pick : Nat) :
    (roundTrip strat ts req pick = .error .noTransports ↔ ts = []) ∧
      (foldStrategy strat (inferResource req) ts = none → ts ≠ [] →
        ∃ t, t ∈ ts ∧ roundTrip strat ts req pick = .ok t) := by
  cases ts with
  | nil =>
    refine ⟨⟨fun _ => rfl, fun _ => rfl⟩, fun _ h => absurd rfl h⟩
  | cons t0 rest =>
    have hres := inferResource_ne_empty req
    have hcons : (t0 :: rest : List Transport) ≠ [] := List.cons_ne_nil t0 rest
    constructor
    · constructor
      · intro h
        exfalso
        unfold roundTrip roundTripSelect at h
        rw [dif_neg hcons, if_neg hres] at h
        cases hfold : foldStrategy strat (inferResource req) (t0 :: rest) with
        | some u => rw [hfold] at h; cases h
        | none => rw [hfold] at h; cases h
      · intro h
        cases h
    · intro hfold _
      refine ⟨(t0 :: rest).get ⟨pick % (t0 :: rest).length,
        Nat.mod_lt _ (List.length_pos.mpr hcons)⟩, List.get_mem _ _ _, ?_⟩
      unfold roundTrip roundTripSelect
      rw [dif_neg hcons, if_neg hres, hfold]

/-- Witness for C5: with one transport and a strategy whose fold is
none, RoundTrip does not fail and delegates to that transport. -/
theorem balancer_empty_error_and_fallback_witness :
    (¬ roundTrip stratKeep [tEmpty] reqUser 0 = Except.error .noTransports) ∧
      (∃ t, t ∈ ([tEmpty] : List Transport) ∧
        roundTrip stratKeep [tEmpty] reqUser 0 = .ok t) :=
  ⟨fun h =>
      absurd ((balancer_empty_error_and_fallback stratKeep [tEmpty] reqUser 0).1.mp h)
        (List.cons_ne_nil tEmpty []),
    (balancer_empty_error_and_fallback stratKeep [tEmpty] reqUser 0).2 rfl
      (List.cons_ne_nil tEmpty [])⟩

/-- Claim C9: for every non-empty candidate list and every strategy
returning only none, its currentBest or its candidate (both shipped
strategies do), the transport RoundTrip delegates to is an element of
the balancer's own candidate list. -/
theorem balancer_delegates_to_member
    (strat : Resource → Option Transport → Option Transport → Option Transport)
    (hs : ∀ res b c, strat res b c = none ∨ strat res b c = b ∨ strat res b c = c)
    (ts : List Transport) (hne : ts ≠ []) (req : Request) (pick : Nat)
    (t : Transport) (hok : roundTrip strat ts req pick = .ok t) : t ∈ ts := by
  cases ts with
  | nil => exact absurd rfl hne
  | cons t0 rest =>
    unfold roundTrip roundTripSelect at hok
    rw [dif_neg (List.cons_ne_nil t0 rest), if_neg (inferResource_ne_empty req)] at hok
    cases hfold : foldStrategy strat (inferResource req) (t0 :: rest) with
    | some u =>
      rw [hfold] at hok
      cases hok
      have hcases := foldl_strat_cases strat hs (inferResource req) (t0 :: rest) none
      unfold foldStrategy at hfold
      rcases hcases with h | h | ⟨v, hv, hmem⟩
      · cases h.symm.trans hfold
      · cases h.symm.trans hfold
      · have hvu := hv.symm.trans hfold
        injection hvu with hvu
        rw [← hvu]
        exact hmem
    | none =>
      rw [hfold] at hok
      cases hok
      exact List.get_mem _ _ _

/-- Witness for C9: a conforming strategy over one transport delegates
to that transport, a member of the list. -/
theorem balancer_delegates_to_member_witness :
    tEmpty ∈ ([tEmpty] : List Transport) :=
  balancer_delegates_to_member stratKeep (fun _ b _ => Or.inr (Or.inl rfl))
    [tEmpty] (by simp) reqUser 0 tEmpty (by rfl)

/-- Both shipped strategies only ever return none, the current best, or
the candidate (the parenthetical of C9). -/
theorem shipped_strategies_conform (res : Resource) (b c : Option Transport)
    (now : Int) :
    (strategyMostRemaining res b c = none ∨ strategyMostRemaining res b c = b ∨
      strategyMostRemaining res b c = c) ∧
      (strategyResetTimeInPastAndMostRemaining now res b c = none ∨
        strategyResetTimeInPastAndMostRemaining now res b c = b ∨
        strategyResetTimeInPastAndMostRemaining now res b c = c) := by
  constructor
  · unfold strategyMostRemaining
    split_ifs
    · exact Or.inr (Or.inr rfl)
    · exact Or.inr (Or.inl rfl)
  · unfold strategyResetTimeInPastAndMostRemaining
    split_ifs <;> simp

end GhRateLimit
